import Mathlib

/-!
Verification of the ordered parallel frame-analysis pipeline of the
rust-firework repository, covering its two analysis scripts:

* `src/integration/visual_test/analyze_optical_flow.py` — the pairwise
  (optical-flow) variant: `process_all_frames`, `compute_flow_and_annotate`,
  `compute_accelerations`, and the `cli` exit policy.
* `src/integration/visual_test/main.py` — the per-frame (density) variant:
  `process_image`, `compute_deltas`, the alert assignment loop in `main`,
  and the cross-correlation / best-lag computation in `plot_graphs`.

Python floats are modelled as rationals, pixel data as rational RGB triples,
and the opaque vision calls (cv2.imread / Farneback flow / Hough detection,
PIL decoding) as explicit function parameters, as the specification treats
them as external collaborators.  Worker-pool nondeterminism is modelled by
quantifying over the completion order: a list of unit indices that is a
permutation of the submitted task indices, consumed in order by the
collection loop exactly as `as_completed` yields futures.
-/

namespace FireworkAnalysis

/-! ## Generic dispatcher model

Shared by both scripts.  `collectLoop` models the `as_completed` loop of
`analyze_optical_flow.process_all_frames`: results are appended in
completion order and the first failed future aborts the whole loop with the
failing index and its error (`logger.exception(...); raise`).
`collectSkip` models the `as_completed` loop of `main.main`: a failed
future is reported and skipped, and collection continues.
`sortByKey` models `results.sort(key=lambda r: r.index)` / `r["idx"]`. -/

def collectLoop {α : Type} : List (ℕ × Except String α) → Except (ℕ × String) (List α)
  | [] => .ok []
  | (_, .ok r) :: rest => (collectLoop rest).map (fun tail => r :: tail)
  | (i, .error e) :: _ => .error (i, e)

def collectSkip {α : Type} : List (ℕ × Except String α) → List α
  | [] => []
  | (_, .ok r) :: rest => r :: collectSkip rest
  | (_, .error _) :: rest => collectSkip rest

def sortByKey {α : Type} (key : α → ℕ) (l : List α) : List α :=
  List.insertionSort (fun a b => key a ≤ key b) l

/-- Value of a successful `Except`, with a default for the error case. -/
def okD {α : Type} (d : α) : Except String α → α
  | .ok v => v
  | .error _ => d

def exceptIsOk {ε α : Type} : Except ε α → Bool
  | .ok _ => true
  | .error _ => false

instance {ε α : Type} [DecidableEq ε] [DecidableEq α] : DecidableEq (Except ε α) := fun a b =>
  match a, b with
  | .error e1, .error e2 =>
      if h : e1 = e2 then isTrue (by rw [h]) else isFalse (fun hc => h (by injection hc))
  | .error _, .ok _ => isFalse (fun hc => Except.noConfusion hc)
  | .ok _, .error _ => isFalse (fun hc => Except.noConfusion hc)
  | .ok a1, .ok a2 =>
      if h : a1 = a2 then isTrue (by rw [h]) else isFalse (fun hc => h (by injection hc))

/-! ## Zero-padded artifact names

`compute_flow_and_annotate` writes `annotated_{index:03d}.png`;
`process_image` writes `heatmap_{idx:02d}.png` and `ef_{idx:02d}.png`.
The Python format pads with leading zeros to the minimum width but never
truncates, so the digit string is the full decimal numeral left-padded. -/

def digitChar (d : ℕ) : Char := Char.ofNat (48 + d)

def padDigits (w n : ℕ) : List ℕ :=
  List.replicate (w - (Nat.digits 10 n).length) 0 ++ (Nat.digits 10 n).reverse

def padChars (w n : ℕ) : List Char := (padDigits w n).map digitChar

def annotatedPath (dir : List Char) (i : ℕ) : List Char :=
  dir ++ "/annotated_".data ++ padChars 3 i ++ ".png".data

def heatmapName (i : ℕ) : List Char := "heatmap_".data ++ padChars 2 i ++ ".png".data

def efName (i : ℕ) : List Char := "ef_".data ++ padChars 2 i ++ ".png".data

/-! ## Pairwise (optical-flow) variant: analyze_optical_flow.py -/

/-- Mirror of the `FramePairResult` dataclass (the `accel` field is filled
later by `compute_accelerations`, which we model as returning the series). -/
structure FramePairResult where
  index : ℕ
  speed : ℚ
  angle_deg : ℚ
  annotated_path : List Char
deriving Repr, DecidableEq

inductive FlowError
  | noInputFrames
  | needTwoFrames
  | unitFailure (idx : ℕ) (msg : String)
deriving Repr, DecidableEq

/-- Worker cell of `compute_flow_and_annotate`: the opaque CV part
(image decoding plus Farneback flow averaging) is the parameter `w`,
returning mean-flow speed and angle or a decode failure; on success the
result record carries the index of the unit and its zero-padded artifact
path. -/
def computeFlowAndAnnotate (w : ℕ → Except String (ℚ × ℚ)) (dir : List Char)
    (i : ℕ) : Except String FramePairResult :=
  (w i).map (fun v => ⟨i, v.1, v.2, annotatedPath dir i⟩)

/-- The per-index result record produced by a successful worker. -/
def flowResult (w : ℕ → Except String (ℚ × ℚ)) (dir : List Char) (i : ℕ) :
    FramePairResult :=
  ⟨i, (okD (0, 0) (w i)).1, (okD (0, 0) (w i)).2, annotatedPath dir i⟩

/-- Mirror of `process_all_frames`: `n` input frames listed; raises
(`FileNotFoundError`) when none exist and (`RuntimeError`) when fewer than
two, both before any task is built; otherwise submits one task per adjacent
pair (indices `0 .. n-2`), drains them in completion order `comp`, and
sorts the collected results by index.  The first component is the list of
submitted task indices (empty when the pipeline aborts early). -/
def processAllFrames (n : ℕ) (w : ℕ → Except String (ℚ × ℚ)) (dir : List Char)
    (comp : List ℕ) : List ℕ × Except FlowError (List FramePairResult) :=
  if n = 0 then ([], .error .noInputFrames)
  else if n < 2 then ([], .error .needTwoFrames)
  else
    match collectLoop (comp.map (fun i => (i, computeFlowAndAnnotate w dir i))) with
    | .error ie => (List.range (n - 1), .error (.unitFailure ie.1 ie.2))
    | .ok rs => (List.range (n - 1), .ok (sortByKey FramePairResult.index rs))

/-- Pointwise translation of `np.gradient` on a 1-D array with unit
spacing: one-sided differences at both ends, central differences inside. -/
def gradAt (l : List ℚ) (i : ℕ) : ℚ :=
  if i = 0 then l.getD 1 0 - l.getD 0 0
  else if i = l.length - 1 then l.getD (l.length - 1) 0 - l.getD (l.length - 2) 0
  else (l.getD (i + 1) 0 - l.getD (i - 1) 0) / 2

def npGradient (l : List ℚ) : List ℚ := (List.range l.length).map (gradAt l)

/-- Mirror of `compute_accelerations`: for fewer than 2 speeds every
acceleration is set to `0.0`; otherwise `np.gradient(speeds) * fps`.
The Python code writes the values into the result records; we return the
acceleration series, aligned 1:1 with the speed series. -/
def compute_accelerations (speeds : List ℚ) (fps : ℚ) : List ℚ :=
  if speeds.length < 2 then List.replicate speeds.length 0
  else (npGradient speeds).map (fun a => a * fps)

/-- Mean of the speed series as in `cli`: `np.mean([...]) if results else 0.0`. -/
def meanSpeed (speeds : List ℚ) : ℚ :=
  if speeds.isEmpty then 0 else speeds.sum / (speeds.length : ℚ)

/-- Exit-code policy at the end of `cli`: `typer.Exit(code=1)` when the mean
speed is below `0.1` px/frame, `typer.Exit(code=0)` otherwise. -/
def cliExitCode (speeds : List ℚ) : ℕ :=
  if meanSpeed speeds < 1 / 10 then 1 else 0

/-- The tail of `cli` after a successful `process_all_frames`: acceleration
series and exit code; an error from the dispatcher propagates and no
aggregate output is produced. -/
def cliRun (n : ℕ) (w : ℕ → Except String (ℚ × ℚ)) (dir : List Char)
    (comp : List ℕ) (fps : ℚ) : List ℕ × Except FlowError (List ℚ × ℕ) :=
  match processAllFrames n w dir comp with
  | (t, .error e) => (t, .error e)
  | (t, .ok rs) =>
      (t, .ok (compute_accelerations (rs.map FramePairResult.speed) fps,
               cliExitCode (rs.map FramePairResult.speed)))

/-! ## Per-frame (density) variant: main.py -/

/-- RGB raster, pixel values as rationals (float64 image data). Pixels are
addressed as `px row col`; values outside the `h × w` grid are never read. -/
structure Image where
  h : ℕ
  w : ℕ
  px : ℕ → ℕ → ℚ × ℚ × ℚ

instance : Inhabited Image := ⟨⟨0, 0, fun _ _ => (0, 0, 0)⟩⟩

def pxMax (img : Image) (y x : ℕ) : ℚ :=
  max (img.px y x).1 (max (img.px y x).2.1 (img.px y x).2.2)

/-- Row-major coordinate list of the image grid (numpy C order). -/
def coords (img : Image) : List (ℕ × ℕ) :=
  (List.range img.h).flatMap (fun y => (List.range img.w).map (fun x => (y, x)))

/-- Mask of active pixels: `img_data.max(axis=2) > 0`. -/
def maskAt (img : Image) (y x : ℕ) : Bool := decide (0 < pxMax img y x)

/-- Active-pixel coordinates, row-major: `np.argwhere(mask)`. -/
def activeCoords (img : Image) : List (ℕ × ℕ) :=
  (coords img).filter (fun p => maskAt img p.1 p.2)

/-- Density: `np.count_nonzero(mask)`. -/
def density (img : Image) : ℕ :=
  (coords img).countP (fun p => maskAt img p.1 p.2)

/-- Centroid as returned in the result dict: `(centroid_x, centroid_y)`
where `(centroid_y, centroid_x) = np.mean(np.argwhere(mask), axis=0)` when
the density is positive and `(0, 0)` otherwise. -/
def centroid (img : Image) : ℚ × ℚ :=
  if 0 < density img then
    (((activeCoords img).map (fun p => (p.2 : ℚ))).sum / ((activeCoords img).length : ℚ),
     ((activeCoords img).map (fun p => (p.1 : ℚ))).sum / ((activeCoords img).length : ℚ))
  else (0, 0)

/-- Per-channel mean colour over active pixels: `img_data[mask].mean(axis=0)`
when the density is positive, `(0, 0, 0)` otherwise. -/
def meanColors (img : Image) : ℚ × ℚ × ℚ :=
  if 0 < density img then
    (((activeCoords img).map (fun p => (img.px p.1 p.2).1)).sum / ((activeCoords img).length : ℚ),
     ((activeCoords img).map (fun p => (img.px p.1 p.2).2.1)).sum / ((activeCoords img).length : ℚ),
     ((activeCoords img).map (fun p => (img.px p.1 p.2).2.2)).sum / ((activeCoords img).length : ℚ))
  else (0, 0, 0)

/-- Mirror of the result dict of `process_image` (the screenshot name and
the raw heatmap rendering are presentation-only and omitted; `img_data` is
carried because `compute_deltas` reads it). Hough circle and line counts
are opaque detector outputs passed in by the caller. -/
structure ProcResult where
  idx : ℕ
  density : ℕ
  centroid : ℚ × ℚ
  mean_colors : ℚ × ℚ × ℚ
  img_data : Image
  heatmap : List Char
  ef : List Char
  num_circles : ℕ
  num_lines : ℕ

/-- Mirror of `process_image` after a successful decode: all numeric
features plus the two zero-padded artifact names for this index. -/
def processImage (idx : ℕ) (img : Image) (numCircles numLines : ℕ) : ProcResult :=
  ⟨idx, density img, centroid img, meanColors img, img,
   heatmapName idx, efName idx, numCircles, numLines⟩

instance : Inhabited ProcResult :=
  ⟨⟨0, 0, (0, 0), (0, 0, 0), default, [], [], 0, 0⟩⟩

/-- Full worker for one screenshot: `Image.open` may fail (modelled by
`dec`), the Hough detectors are the opaque `hough`. -/
def mainWorker (dec : ℕ → Except String Image) (hough : Image → ℕ × ℕ)
    (i : ℕ) : Except String ProcResult :=
  (dec i).map (fun img => processImage i img (hough img).1 (hough img).2)

/-- The per-index result record produced by a successful worker of main.py. -/
def mainResult (dec : ℕ → Except String Image) (hough : Image → ℕ × ℕ)
    (i : ℕ) : ProcResult :=
  okD default (mainWorker dec hough i)

/-- Collection and reordering step of `main`: drain `comp` in completion
order, skipping failed units, then `results.sort(key=lambda r: r["idx"])`. -/
def mainCollectSorted (dec : ℕ → Except String Image) (hough : Image → ℕ × ℕ)
    (comp : List ℕ) : List ProcResult :=
  sortByKey ProcResult.idx (collectSkip (comp.map (fun i => (i, mainWorker dec hough i))))

/-- Absolute difference of two naturals. -/
def natAbsDiff (a b : ℕ) : ℕ := (a - b) + (b - a)

/-- Absolute value of a rational, written out so that it evaluates. -/
def ratAbs (q : ℚ) : ℚ := if q < 0 then -q else q

/-- Sum over the `h × w × 3` grid of absolute channel differences. -/
def sumAbsDiff (a b : Image) : ℚ :=
  ∑ y ∈ Finset.range a.h, ∑ x ∈ Finset.range a.w,
    (ratAbs ((a.px y x).1 - (b.px y x).1) + ratAbs ((a.px y x).2.1 - (b.px y x).2.1) +
     ratAbs ((a.px y x).2.2 - (b.px y x).2.2))

/-- Mean absolute per-pixel difference `np.mean(np.abs(curr - prev))`. -/
def meanAbsDiff (a b : Image) : ℚ :=
  sumAbsDiff a b / ((a.h * a.w * 3 : ℕ) : ℚ)

/-- One step of `compute_deltas` for a consecutive frame pair: when either
dimension differs by more than 50 pixels the delta is `0.0` and a warning
is printed (second component `true`); with equal shapes the delta is the
mean absolute difference; with unequal shapes inside the tolerance the
numpy subtraction fails to broadcast and raises (singleton-dimension
broadcasting is not modelled and also mapped to the error case). -/
def pairDelta (prev curr : Image) : Except String (ℚ × Bool) :=
  if 50 < natAbsDiff prev.h curr.h ∨ 50 < natAbsDiff prev.w curr.w then .ok (0, true)
  else if prev.h = curr.h ∧ prev.w = curr.w then .ok (meanAbsDiff prev curr, false)
  else .error "ValueError: operands could not be broadcast together"

def deltaTail : Image → List Image → Except String (List (ℚ × Bool))
  | _, [] => .ok []
  | prev, curr :: rest =>
      match pairDelta prev curr with
      | .error e => .error e
      | .ok dw =>
          match deltaTail curr rest with
          | .error e => .error e
          | .ok tail => .ok (dw :: tail)

/-- Mirror of `compute_deltas`: starts from `deltas = [0.0]` and appends one
entry per consecutive pair.  Each entry carries the delta together with the
flag recording whether the dimension-mismatch warning was printed. -/
def compute_deltas : List Image → Except String (List (ℚ × Bool))
  | [] => .ok [(0, false)]
  | a :: rest =>
      match deltaTail a rest with
      | .error e => .error e
      | .ok tail => .ok ((0, false) :: tail)

/-! ## Alerting (main.py globals and the assignment loop in `main`) -/

def PARTICLE_DENSITY_MIN : ℕ := 5000

def PARTICLE_DENSITY_MAX : ℕ := 100000

def DELTA_MAX : ℚ := 10

/-- Alert string built for one index: the density flag and the delta flag
are tested independently and concatenated. -/
def alertFor (dens : ℕ) (delta : ℚ) : String :=
  (if dens < PARTICLE_DENSITY_MIN ∨ PARTICLE_DENSITY_MAX < dens
   then "⚠️ Density out of bounds!" else "")
  ++ (if DELTA_MAX < delta then " ⚠️ Delta too high!" else "")

/-- The `for i, d in enumerate(deltas)` loop of `main`: writes delta and
alert into `results[i]` for every delta index; raises `IndexError` when the
delta list is longer than the result list (which happens exactly when the
result list is empty, since `compute_deltas` always yields at least one
entry). -/
def attachRows (results : List ProcResult) (dws : List (ℚ × Bool)) :
    Except String (List (ProcResult × ℚ × String)) :=
  if dws.length ≤ results.length then
    .ok ((results.zip dws).map (fun p => (p.1, p.2.1, alertFor p.1.density p.2.1)))
  else .error "IndexError: list index out of range"

/-! ## Cross-correlation (plot_graphs) -/

/-- Mean-centering `xs - np.mean(xs)`. -/
def centered (l : List ℚ) : List ℚ :=
  l.map (fun x => x - l.sum / (l.length : ℚ))

/-- Array lookup at a possibly negative lag-shifted position; out-of-range
reads contribute `0` to the correlation sum. -/
def getQ (l : List ℚ) (i : ℤ) : ℚ :=
  if 0 ≤ i then l.getD i.toNat 0 else 0

/-- One entry of the full cross-correlation at lag `L`:
`c(L) = Σ_n a(n + L) · v(n)`. -/
def corrAt (a v : List ℚ) (L : ℤ) : ℚ :=
  ∑ n ∈ Finset.range v.length, getQ a ((n : ℤ) + L) * v.getD n 0

/-- Mirror of `np.correlate(a, v, mode="full")` for equal-length inputs:
entry `j` is the correlation at lag `j - (len - 1)`. -/
def corrFull (a v : List ℚ) : List ℚ :=
  (List.range (a.length + v.length - 1)).map
    (fun (j : ℕ) => corrAt a v ((j : ℤ) - ((v.length : ℤ) - 1)))

/-- Mirror of `lags = np.arange(-len + 1, len)`. -/
def lagsList (n : ℕ) : List ℤ :=
  (List.range (2 * n - 1)).map (fun (j : ℕ) => (j : ℤ) - ((n : ℤ) - 1))

def argmaxAux : List ℚ → ℕ → ℕ × ℚ → ℕ × ℚ
  | [], _, best => best
  | x :: xs, i, best =>
      if best.2 < x then argmaxAux xs (i + 1) (i, x)
      else argmaxAux xs (i + 1) best

/-- Mirror of `np.argmax`: index of the first occurrence of the maximum. -/
def npArgmax : List ℚ → ℕ
  | [] => 0
  | x :: xs => (argmaxAux xs 1 (0, x)).1

/-- Mirror of `best_lag = lags[np.argmax(corr)]` with
`corr = np.correlate(rockets - mean, explosions - mean, mode="full")`. -/
def bestLag (rockets explosions : List ℚ) : ℤ :=
  (lagsList rockets.length).getD
    (npArgmax (corrFull (centered rockets) (centered explosions))) 0

/-- Aggregate output of `main` handed to the report: per-frame rows
(result, delta, alert) and the rockets-vs-explosions best lag. -/
structure MainReport where
  rows : List (ProcResult × ℚ × String)
  best_lag : ℤ

/-- Mirror of `main`: exits early when no screenshot exists; otherwise
submits units with indices `1 .. n` (`enumerate(screenshots, start=1)`),
collects them skipping failures, sorts by index, and runs the aggregation
stage (deltas, alerts, cross-correlation).  The first component is the
list of submitted unit indices. -/
def mainPipeline (n : ℕ) (dec : ℕ → Except String Image) (hough : Image → ℕ × ℕ)
    (comp : List ℕ) : List ℕ × Except String MainReport :=
  if n = 0 then ([], .error "No .png files found in folder.")
  else
    let tasks := (List.range n).map (fun i => i + 1)
    let results := mainCollectSorted dec hough comp
    match compute_deltas (results.map ProcResult.img_data) with
    | .error e => (tasks, .error e)
    | .ok dws =>
        match attachRows results dws with
        | .error e => (tasks, .error e)
        | .ok rows =>
            (tasks, .ok ⟨rows, bestLag (results.map (fun r => (r.num_lines : ℚ)))
                                       (results.map (fun r => (r.num_circles : ℚ)))⟩)

/-- Number of rows the aggregation stage produced (0 when the pipeline
errored out). -/
def reportRowCount (x : Except String MainReport) : ℕ :=
  match x with
  | .ok rep => rep.rows.length
  | .error _ => 0

/-! ## Infrastructure lemmas -/

theorem getD_repl {α : Type} (n i : ℕ) (c d : α) (h : i < n) :
    (List.replicate n c).getD i d = c := by
  rw [List.getD_eq_getElem?_getD, List.getElem?_replicate, if_pos h]
  rfl

theorem sortByKey_perm {α : Type} (key : α → ℕ) (l : List α) :
    List.Perm (sortByKey key l) l :=
  List.perm_insertionSort _ l

/-- Sorting by key is the unique strictly-key-sorted arrangement: any list
that is a permutation of a strictly key-sorted target sorts to the target. -/
theorem sortByKey_eq_of_perm {α : Type} (key : α → ℕ) {l target : List α}
    (hp : List.Perm l target)
    (ht : target.Pairwise (fun a b => key a < key b)) :
    sortByKey key l = target := by
  have hperm : List.Perm (sortByKey key l) target := (sortByKey_perm key l).trans hp
  haveI : IsTotal α (fun a b => key a ≤ key b) := ⟨fun a b => Nat.le_total _ _⟩
  haveI : IsTrans α (fun a b => key a ≤ key b) := ⟨fun _ _ _ h1 h2 => Nat.le_trans h1 h2⟩
  have hs : (sortByKey key l).Pairwise (fun a b => key a ≤ key b) :=
    List.sorted_insertionSort _ l
  have htk : (target.map key).Pairwise (· < ·) := List.pairwise_map.mpr ht
  have hndt : (target.map key).Nodup := htk.imp (fun h => Nat.ne_of_lt h)
  have hnds : ((sortByKey key l).map key).Nodup := ((hperm.map key).nodup_iff).mpr hndt
  have hne : (sortByKey key l).Pairwise (fun a b => key a ≠ key b) :=
    List.pairwise_map.mp hnds
  have hstrict : (sortByKey key l).Pairwise (fun a b => key a < key b) :=
    (hs.and hne).imp (fun h => lt_of_le_of_ne h.1 h.2)
  haveI : IsAntisymm α (fun a b => key a < key b) :=
    ⟨fun _ _ h1 h2 => absurd (Nat.lt_trans h1 h2) (Nat.lt_irrefl _)⟩
  exact List.eq_of_perm_of_sorted hperm hstrict ht

theorem collectLoop_all_ok {α : Type} (d : α) :
    ∀ L : List (ℕ × Except String α), (∀ p ∈ L, ∃ v, p.2 = .ok v) →
      collectLoop L = .ok (L.map (fun p => okD d p.2))
  | [], _ => rfl
  | (i, e) :: rest, h => by
      obtain ⟨v, hv⟩ := h (i, e) (List.mem_cons_self _ _)
      subst hv
      have ih := collectLoop_all_ok d rest (fun p hp => h p (List.mem_cons_of_mem _ hp))
      simp [collectLoop, ih, okD, Except.map]

theorem collectLoop_first_error {α : Type} (i : ℕ) (e : String)
    (L2 : List (ℕ × Except String α)) :
    ∀ L1 : List (ℕ × Except String α), (∀ q ∈ L1, ∃ v, q.2 = .ok v) →
      collectLoop (L1 ++ (i, Except.error e) :: L2) = .error (i, e)
  | [], _ => rfl
  | (j, f) :: rest, h => by
      obtain ⟨v, hv⟩ := h (j, f) (List.mem_cons_self _ _)
      subst hv
      have ih := collectLoop_first_error i e L2 rest
        (fun p hp => h p (List.mem_cons_of_mem _ hp))
      simp [collectLoop, ih, Except.map]

theorem collectSkip_append {α : Type} :
    ∀ L1 L2 : List (ℕ × Except String α),
      collectSkip (L1 ++ L2) = collectSkip L1 ++ collectSkip L2
  | [], _ => rfl
  | (_, .ok _) :: rest, L2 => by simp [collectSkip, collectSkip_append rest L2]
  | (_, .error _) :: rest, L2 => by simp [collectSkip, collectSkip_append rest L2]

theorem collectSkip_all_ok {α : Type} (d : α) :
    ∀ L : List (ℕ × Except String α), (∀ p ∈ L, ∃ v, p.2 = .ok v) →
      collectSkip L = L.map (fun p => okD d p.2)
  | [], _ => rfl
  | (i, e) :: rest, h => by
      obtain ⟨v, hv⟩ := h (i, e) (List.mem_cons_self _ _)
      subst hv
      have ih := collectSkip_all_ok d rest (fun p hp => h p (List.mem_cons_of_mem _ hp))
      simp [collectSkip, ih, okD]

/-! ## Claim C1: ordered reassembly -/

theorem computeFlow_ok (w : ℕ → Except String (ℚ × ℚ)) (dir : List Char) (i : ℕ)
    (h : ∃ v, w i = .ok v) :
    computeFlowAndAnnotate w dir i = .ok (flowResult w dir i) := by
  obtain ⟨v, hv⟩ := h
  simp [computeFlowAndAnnotate, flowResult, hv, okD, Except.map]

theorem mainWorker_ok (dec : ℕ → Except String Image) (hough : Image → ℕ × ℕ)
    (i : ℕ) (h : ∃ img, dec i = .ok img) :
    mainWorker dec hough i = .ok (mainResult dec hough i) := by
  obtain ⟨img, hv⟩ := h
  simp [mainWorker, mainResult, hv, okD, Except.map]

theorem mainResult_idx (dec : ℕ → Except String Image) (hough : Image → ℕ × ℕ)
    (i : ℕ) (h : ∃ img, dec i = .ok img) :
    (mainResult dec hough i).idx = i := by
  obtain ⟨img, hv⟩ := h
  simp [mainResult, mainWorker, hv, okD, processImage, Except.map]

/-- The claim asserts indices `0 .. n-1` for every unit count `n ≥ 1`; the
per-frame pipeline of main.py enumerates screenshots starting at 1, so with
a single screenshot the sole collected result has index 1, not 0. -/
theorem C1_counterexample :
    ¬ ((mainCollectSorted (fun _ => .ok ⟨1, 1, fun _ _ => (0, 0, 0)⟩)
          (fun _ => (0, 0)) [1]).map ProcResult.idx = List.range 1) := by
  decide

/-- Amended claim C1: for every unit count and every completion order of
successful workers, the result list of each variant handed to aggregation has
exactly one entry per submitted unit, equal to a canonical list independent
of the completion order, with strictly increasing contiguous indices —
starting at 0 in the pairwise (optical flow) variant and at 1 in the
per-frame (density) variant. -/
theorem C1_ordered_reassembly :
    (∀ (n : ℕ) (w : ℕ → Except String (ℚ × ℚ)) (dir : List Char) (comp : List ℕ),
      2 ≤ n → List.Perm comp (List.range (n - 1)) →
      (∀ i ∈ comp, ∃ v, w i = .ok v) →
      (processAllFrames n w dir comp).1 = List.range (n - 1) ∧
      (processAllFrames n w dir comp).2
        = .ok ((List.range (n - 1)).map (flowResult w dir)) ∧
      ((List.range (n - 1)).map (flowResult w dir)).map FramePairResult.index
        = List.range (n - 1)) ∧
    (∀ (dec : ℕ → Except String Image) (hough : Image → ℕ × ℕ) (n : ℕ) (comp : List ℕ),
      List.Perm comp ((List.range n).map (fun i => i + 1)) →
      (∀ i ∈ comp, ∃ img, dec i = .ok img) →
      mainCollectSorted dec hough comp
        = ((List.range n).map (fun i => i + 1)).map (mainResult dec hough) ∧
      (((List.range n).map (fun i => i + 1)).map (mainResult dec hough)).map ProcResult.idx
        = (List.range n).map (fun i => i + 1)) := by
  constructor
  · intro n w dir comp h2 hperm hok
    have hn0 : ¬ n = 0 := by omega
    have hn2 : ¬ n < 2 := by omega
    have hcollect : collectLoop (comp.map (fun i => (i, computeFlowAndAnnotate w dir i)))
        = .ok (comp.map (flowResult w dir)) := by
      rw [collectLoop_all_ok (⟨0, 0, 0, []⟩ : FramePairResult) _
        (by
          intro p hp
          obtain ⟨i, hi, rfl⟩ := List.mem_map.mp hp
          obtain ⟨v, hv⟩ := hok i hi
          exact ⟨⟨i, v.1, v.2, annotatedPath dir i⟩, by simp [computeFlowAndAnnotate, hv, Except.map]⟩)]
      rw [List.map_map]
      congr 1
      apply List.map_congr_left
      intro i hi
      simp only [Function.comp]
      rw [computeFlow_ok w dir i (hok i hi)]
      rfl
    have hsort : sortByKey FramePairResult.index (comp.map (flowResult w dir))
        = (List.range (n - 1)).map (flowResult w dir) := by
      apply sortByKey_eq_of_perm
      · exact hperm.map (flowResult w dir)
      · apply List.pairwise_map.mpr
        apply (List.pairwise_lt_range (n - 1)).imp
        intro a b hab
        simpa [flowResult] using hab
    refine ⟨?_, ?_, ?_⟩
    · simp [processAllFrames, hn0, hn2, hcollect]
    · simp [processAllFrames, hn0, hn2, hcollect, hsort]
    · rw [List.map_map]
      have hid : ∀ i ∈ List.range (n - 1),
          (FramePairResult.index ∘ flowResult w dir) i = id i := fun i _ => rfl
      rw [List.map_congr_left hid, List.map_id]
  · intro dec hough n comp hperm hok
    have hcollect : collectSkip (comp.map (fun i => (i, mainWorker dec hough i)))
        = comp.map (mainResult dec hough) := by
      rw [collectSkip_all_ok (default : ProcResult) _
        (by
          intro p hp
          obtain ⟨i, hi, rfl⟩ := List.mem_map.mp hp
          obtain ⟨img, hv⟩ := hok i hi
          exact ⟨mainResult dec hough i, mainWorker_ok dec hough i ⟨img, hv⟩⟩)]
      rw [List.map_map]
      rfl
    have hmem : ∀ i ∈ (List.range n).map (fun i => i + 1), ∃ img, dec i = .ok img := by
      intro i hi
      exact hok i (hperm.mem_iff.mpr hi)
    constructor
    · rw [mainCollectSorted, hcollect]
      apply sortByKey_eq_of_perm
      · exact hperm.map (mainResult dec hough)
      · apply List.pairwise_map.mpr
        have hbase : ((List.range n).map (fun i => i + 1)).Pairwise (· < ·) := by
          apply List.pairwise_map.mpr
          exact (List.pairwise_lt_range n).imp (fun h => by omega)
        apply hbase.imp_of_mem
        intro a b ha hb hab
        rw [mainResult_idx dec hough a (hmem a ha), mainResult_idx dec hough b (hmem b hb)]
        exact hab
    · rw [List.map_map]
      have hid : ∀ i ∈ (List.range n).map (fun i => i + 1),
          (ProcResult.idx ∘ mainResult dec hough) i = id i := by
        intro i hi
        simp only [Function.comp, id]
        exact mainResult_idx dec hough i (hmem i hi)
      rw [List.map_congr_left hid, List.map_id]

theorem C1_witness :
    (processAllFrames 3 (fun i => .ok ((i : ℚ), 0)) [] [1, 0]).2
      = .ok ((List.range 2).map (flowResult (fun i => .ok ((i : ℚ), 0)) []))
    ∧ mainCollectSorted (fun _ => .ok ⟨1, 1, fun _ _ => (1, 0, 0)⟩) (fun _ => (0, 0)) [2, 1]
      = ((List.range 2).map (fun i => i + 1)).map
          (mainResult (fun _ => .ok ⟨1, 1, fun _ _ => (1, 0, 0)⟩) (fun _ => (0, 0))) :=
  ⟨(C1_ordered_reassembly.1 3 (fun i => .ok ((i : ℚ), 0)) [] [1, 0]
      (by norm_num) (by decide) (fun i _ => ⟨((i : ℚ), 0), rfl⟩)).2.1,
   (C1_ordered_reassembly.2 (fun _ => .ok ⟨1, 1, fun _ _ => (1, 0, 0)⟩) (fun _ => (0, 0))
      2 [2, 1] (by decide) (fun i _ => ⟨_, rfl⟩)).1⟩

/-! ## Claim C2: failure propagation -/

theorem collectSkip_error_cons {α : Type} (i : ℕ) (e : String)
    (L : List (ℕ × Except String α)) :
    collectSkip ((i, Except.error e) :: L) = collectSkip L := rfl

theorem computeFlow_err (w : ℕ → Except String (ℚ × ℚ)) (dir : List Char) (i : ℕ)
    (e : String) (h : w i = .error e) :
    computeFlowAndAnnotate w dir i = .error e := by
  simp [computeFlowAndAnnotate, h, Except.map]

/-- The per-frame pipeline of main.py does produce partial output after a
unit failure: with 2 submitted units whose first fails to decode, the run
succeeds and the aggregation stage is invoked on a single-row result set. -/
theorem C2_counterexample :
    exceptIsOk (mainPipeline 2
        (fun i => if i = 1 then .error "cannot identify image file"
                  else .ok ⟨1, 1, fun _ _ => (0, 0, 0)⟩)
        (fun _ => (0, 0)) [1, 2]).2 = true
    ∧ reportRowCount (mainPipeline 2
        (fun i => if i = 1 then .error "cannot identify image file"
                  else .ok ⟨1, 1, fun _ _ => (0, 0, 0)⟩)
        (fun _ => (0, 0)) [1, 2]).2 = 1
    ∧ (mainPipeline 2
        (fun i => if i = 1 then .error "cannot identify image file"
                  else .ok ⟨1, 1, fun _ _ => (0, 0, 0)⟩)
        (fun _ => (0, 0)) [1, 2]).1 = [1, 2] := by
  refine ⟨?_, ?_, ?_⟩ <;> rfl

/-- Amended claim C2: in the pairwise (optical flow) variant the dispatcher
propagates the first failure observed in completion order as a fatal
pipeline error carrying the failing index, and the aggregation stage is
never reached; in the per-frame (density) variant a failed unit is reported
and skipped, the collected result set is exactly the one obtained as if the
failing unit had never been submitted, and aggregation proceeds on that
partial result set. -/
theorem C2_failure_propagation :
    (∀ (n : ℕ) (w : ℕ → Except String (ℚ × ℚ)) (dir : List Char) (fps : ℚ)
       (pre : List ℕ) (i : ℕ) (e : String) (suf : List ℕ),
      2 ≤ n → (∀ j ∈ pre, ∃ v, w j = .ok v) → w i = .error e →
      cliRun n w dir (pre ++ i :: suf) fps
        = (List.range (n - 1), .error (.unitFailure i e))) ∧
    (∀ (dec : ℕ → Except String Image) (hough : Image → ℕ × ℕ)
       (pre : List ℕ) (i : ℕ) (e : String) (suf : List ℕ),
      dec i = .error e →
      mainCollectSorted dec hough (pre ++ i :: suf)
        = mainCollectSorted dec hough (pre ++ suf)) := by
  constructor
  · intro n w dir fps pre i e suf h2 hpre hie
    have hn0 : ¬ n = 0 := by omega
    have hn2 : ¬ n < 2 := by omega
    have hmid : computeFlowAndAnnotate w dir i = .error e := computeFlow_err w dir i e hie
    have hcoll : collectLoop ((pre ++ i :: suf).map
        (fun j => (j, computeFlowAndAnnotate w dir j))) = .error (i, e) := by
      rw [List.map_append, List.map_cons, hmid]
      exact collectLoop_first_error i e _ _ (by
        intro q hq
        obtain ⟨j, hj, rfl⟩ := List.mem_map.mp hq
        obtain ⟨v, hv⟩ := hpre j hj
        exact ⟨_, computeFlow_ok w dir j ⟨v, hv⟩⟩)
    simp only [List.map_append, List.map_cons] at hcoll
    simp [cliRun, processAllFrames, hn0, hn2, hcoll]
  · intro dec hough pre i e suf hie
    unfold mainCollectSorted
    congr 1
    rw [List.map_append, List.map_cons, List.map_append,
        collectSkip_append, collectSkip_append]
    congr 1
    have hw : mainWorker dec hough i = .error e := by
      simp [mainWorker, hie, Except.map]
    rw [hw, collectSkip_error_cons]

theorem C2_witness :
    cliRun 3 (fun j => if j = 1 then .error "boom" else .ok (1, 0)) [] [0, 1] 60
      = (List.range 2, .error (.unitFailure 1 "boom"))
    ∧ mainCollectSorted (fun j => if j = 1 then .error "bad"
          else .ok ⟨1, 1, fun _ _ => (0, 0, 0)⟩) (fun _ => (0, 0)) [1, 2]
      = mainCollectSorted (fun j => if j = 1 then .error "bad"
          else .ok ⟨1, 1, fun _ _ => (0, 0, 0)⟩) (fun _ => (0, 0)) [2] :=
  ⟨C2_failure_propagation.1 3 (fun j => if j = 1 then .error "boom" else .ok (1, 0))
      [] 60 [0] 1 "boom" [] (by norm_num)
      (by
        intro j hj
        simp only [List.mem_singleton] at hj
        exact ⟨(1, 0), by simp [hj]⟩) rfl,
   C2_failure_propagation.2 (fun j => if j = 1 then .error "bad"
      else .ok ⟨1, 1, fun _ _ => (0, 0, 0)⟩) (fun _ => (0, 0)) [] 1 "bad" [2] rfl⟩

/-! ## Claim C8: empty input is fatal before any parallel work -/

/-- Fewer than the minimum required frames (2 pairwise, 1 per-frame) aborts
the pipeline with the fatal input error and an empty submitted-task list:
no parallel work is ever started. -/
theorem C8_empty_input :
    (∀ (n : ℕ) (w : ℕ → Except String (ℚ × ℚ)) (dir : List Char) (comp : List ℕ),
      n < 2 →
      processAllFrames n w dir comp = ([], .error .noInputFrames) ∨
      processAllFrames n w dir comp = ([], .error .needTwoFrames)) ∧
    (∀ (dec : ℕ → Except String Image) (hough : Image → ℕ × ℕ) (comp : List ℕ),
      mainPipeline 0 dec hough comp
        = ([], .error "No .png files found in folder.")) := by
  constructor
  · intro n w dir comp h
    by_cases h0 : n = 0
    · left
      simp [processAllFrames, h0]
    · right
      simp [processAllFrames, h0, h]
  · intro dec hough comp
    rfl

theorem C8_witness :
    (processAllFrames 1 (fun _ => .ok (0, 0)) [] []
        = ([], .error .noInputFrames) ∨
     processAllFrames 1 (fun _ => .ok (0, 0)) [] []
        = ([], .error .needTwoFrames))
    ∧ mainPipeline 0 (fun _ => .ok default) (fun _ => (0, 0)) []
        = ([], .error "No .png files found in folder.") :=
  ⟨C8_empty_input.1 1 (fun _ => .ok (0, 0)) [] [] (by norm_num),
   C8_empty_input.2 (fun _ => .ok default) (fun _ => (0, 0)) []⟩

/-! ## Claim C9: zero-padded artifact paths are collision-free -/

theorem ofDigits_replicate_zero : ∀ k : ℕ, Nat.ofDigits 10 (List.replicate k 0) = 0
  | 0 => rfl
  | k + 1 => by
      rw [List.replicate_succ, Nat.ofDigits_cons, ofDigits_replicate_zero k]

theorem unpad_padDigits (w n : ℕ) :
    Nat.ofDigits 10 (padDigits w n).reverse = n := by
  unfold padDigits
  rw [List.reverse_append, List.reverse_replicate, List.reverse_reverse,
      Nat.ofDigits_append, ofDigits_replicate_zero, Nat.ofDigits_digits]
  simp

theorem padDigits_inj (w : ℕ) {a b : ℕ} (h : padDigits w a = padDigits w b) :
    a = b := by
  have ha := unpad_padDigits w a
  have hb := unpad_padDigits w b
  rw [h, hb] at ha
  exact ha.symm

theorem padDigits_lt (w n : ℕ) : ∀ d ∈ padDigits w n, d < 10 := by
  intro d hd
  rcases List.mem_append.mp hd with hrep | hdig
  · rw [List.eq_of_mem_replicate hrep]
    norm_num
  · exact Nat.digits_lt_base (by norm_num) (List.mem_reverse.mp hdig)

theorem digitChar_inj_lt :
    ∀ d1 < 10, ∀ d2 < 10, digitChar d1 = digitChar d2 → d1 = d2 := by decide

theorem map_digitChar_inj :
    ∀ l1 l2 : List ℕ, (∀ d ∈ l1, d < 10) → (∀ d ∈ l2, d < 10) →
      l1.map digitChar = l2.map digitChar → l1 = l2
  | [], [], _, _, _ => rfl
  | [], _ :: _, _, _, h => by simp at h
  | _ :: _, [], _, _, h => by simp at h
  | a :: l1, b :: l2, h1, h2, h => by
      simp only [List.map_cons, List.cons.injEq] at h
      have hab := digitChar_inj_lt a (h1 a (List.mem_cons_self _ _))
        b (h2 b (List.mem_cons_self _ _)) h.1
      have hl := map_digitChar_inj l1 l2
        (fun d hd => h1 d (List.mem_cons_of_mem _ hd))
        (fun d hd => h2 d (List.mem_cons_of_mem _ hd)) h.2
      rw [hab, hl]

theorem padChars_inj (w : ℕ) {a b : ℕ} (h : padChars w a = padChars w b) :
    a = b :=
  padDigits_inj w (map_digitChar_inj _ _ (padDigits_lt w a) (padDigits_lt w b) h)

/-- Distinct unit indices always map to distinct artifact paths under the
zero-padded naming schemes of both scripts, so concurrent workers never
target the same output file. -/
theorem C9_paths_injective :
    (∀ (dir : List Char) (i j : ℕ), i ≠ j →
      annotatedPath dir i ≠ annotatedPath dir j) ∧
    (∀ i j : ℕ, i ≠ j → heatmapName i ≠ heatmapName j) ∧
    (∀ i j : ℕ, i ≠ j → efName i ≠ efName j) := by
  refine ⟨?_, ?_, ?_⟩
  · intro dir i j hne heq
    apply hne
    unfold annotatedPath at heq
    exact padChars_inj 3 (List.append_cancel_left (List.append_cancel_right heq))
  · intro i j hne heq
    apply hne
    unfold heatmapName at heq
    exact padChars_inj 2 (List.append_cancel_left (List.append_cancel_right heq))
  · intro i j hne heq
    apply hne
    unfold efName at heq
    exact padChars_inj 2 (List.append_cancel_left (List.append_cancel_right heq))

theorem C9_witness :
    annotatedPath "out".data 0 ≠ annotatedPath "out".data 1
    ∧ heatmapName 0 ≠ heatmapName 1
    ∧ efName 2 ≠ efName 3 :=
  ⟨C9_paths_injective.1 "out".data 0 1 (by decide),
   C9_paths_injective.2.1 0 1 (by decide),
   C9_paths_injective.2.2 2 3 (by decide)⟩

/-! ## Claim C10: exit code depends on the mean speed, not only on success -/

/-- Even a fully successful run exits with code 1 exactly when the mean
per-pair speed is strictly below 0.1 px/frame, and with code 0 otherwise;
the success path of the CLI always applies this exit policy to the
collected speed series. -/
theorem C10_exit_policy :
    (∀ speeds : List ℚ,
      (cliExitCode speeds = 1 ↔ meanSpeed speeds < 1 / 10) ∧
      (cliExitCode speeds = 0 ↔ 1 / 10 ≤ meanSpeed speeds)) ∧
    (∀ (n : ℕ) (w : ℕ → Except String (ℚ × ℚ)) (dir : List Char) (comp : List ℕ)
       (fps : ℚ) (rs : List FramePairResult),
      (processAllFrames n w dir comp).2 = .ok rs →
      (cliRun n w dir comp fps).2
        = .ok (compute_accelerations (rs.map FramePairResult.speed) fps,
               cliExitCode (rs.map FramePairResult.speed))) := by
  constructor
  · intro speeds
    unfold cliExitCode
    split_ifs with h
    · exact ⟨⟨fun _ => h, fun _ => rfl⟩,
             ⟨fun h10 => absurd h10 (by norm_num),
              fun hle => absurd h (not_lt.mpr hle)⟩⟩
    · exact ⟨⟨fun h10 => absurd h10 (by norm_num), fun hlt => absurd hlt h⟩,
             ⟨fun _ => not_lt.mp h, fun _ => rfl⟩⟩
  · intro n w dir comp fps rs h
    unfold cliRun
    rcases hp : processAllFrames n w dir comp with ⟨t, res⟩
    rw [hp] at h
    cases res with
    | error e => exact absurd h (by simp)
    | ok rs2 =>
        simp only [Except.ok.injEq] at h
        subst h
        rfl

theorem C10_witness :
    cliExitCode [0] = 1
    ∧ (cliRun 2 (fun _ => .ok (0, 0)) [] [0] 60).2
        = .ok (compute_accelerations
                 (([⟨0, 0, 0, annotatedPath [] 0⟩] : List FramePairResult).map
                   FramePairResult.speed) 60,
               cliExitCode
                 (([⟨0, 0, 0, annotatedPath [] 0⟩] : List FramePairResult).map
                   FramePairResult.speed)) :=
  ⟨(C10_exit_policy.1 [0]).1.mpr (by norm_num [meanSpeed]),
   C10_exit_policy.2 2 (fun _ => .ok (0, 0)) [] [0] 60
     [⟨0, 0, 0, annotatedPath [] 0⟩] rfl⟩

/-! ## Claim C4: alert flag semantics -/

/-- The alert flag at an index is non-empty exactly when the density lies
strictly outside the configured band or the delta strictly exceeds the
ceiling; boundary values do not fire; both flags are independent and
concatenate; and the row built by the assignment loop at index `i` pairs
`results[i]` with `deltas[i]` and the alert computed from them. -/
theorem C4_alert_conditions :
    (∀ (dens : ℕ) (δ : ℚ), alertFor dens δ ≠ "" ↔
       (dens < PARTICLE_DENSITY_MIN ∨ PARTICLE_DENSITY_MAX < dens ∨ DELTA_MAX < δ)) ∧
    (∀ (dens : ℕ) (δ : ℚ), (dens < PARTICLE_DENSITY_MIN ∨ PARTICLE_DENSITY_MAX < dens) →
       DELTA_MAX < δ →
       alertFor dens δ = "⚠️ Density out of bounds!" ++ " ⚠️ Delta too high!") ∧
    (∀ (results : List ProcResult) (dws : List (ℚ × Bool))
       (rows : List (ProcResult × ℚ × String)) (i : ℕ),
       attachRows results dws = .ok rows → i < dws.length →
       rows.getD i default
         = (results.getD i default, (dws.getD i default).1,
            alertFor (results.getD i default).density (dws.getD i default).1)) := by
  refine ⟨?_, ?_, ?_⟩
  · intro dens δ
    unfold alertFor
    split_ifs with h1 h2 h3
    · exact iff_of_true (by decide) (by tauto)
    · exact iff_of_true (by decide) (by tauto)
    · exact iff_of_true (by decide) (by tauto)
    · exact iff_of_false (by decide) (by tauto)
  · intro dens δ h1 h2
    unfold alertFor
    rw [if_pos h1, if_pos h2]
  · intro results dws rows i hat hi
    unfold attachRows at hat
    by_cases hlen : dws.length ≤ results.length
    · rw [if_pos hlen] at hat
      simp only [Except.ok.injEq] at hat
      subst hat
      have hz : i < (results.zip dws).length := by
        rw [List.length_zip]
        omega
      have hm : i < ((results.zip dws).map
          (fun p => (p.1, p.2.1, alertFor p.1.density p.2.1))).length := by
        simpa using hz
      rw [List.getD_eq_getElem _ _ hm, List.getElem_map, List.getElem_zip,
          List.getD_eq_getElem results default (by omega),
          List.getD_eq_getElem dws default hi]
    · rw [if_neg hlen] at hat
      exact absurd hat (by simp)

theorem C4_witness :
    alertFor 3000 0 ≠ ""
    ∧ alertFor 4000 11 = "⚠️ Density out of bounds!" ++ " ⚠️ Delta too high!"
    ∧ ([((default : ProcResult), (0 : ℚ),
          alertFor (ProcResult.density default) 0)]).getD 0 default
        = (([(default : ProcResult)]).getD 0 default,
           (([((0 : ℚ), false)]).getD 0 default).1,
           alertFor (([(default : ProcResult)]).getD 0 default).density
             (([((0 : ℚ), false)]).getD 0 default).1) :=
  ⟨(C4_alert_conditions.1 3000 0).mpr
      (Or.inl (by norm_num [PARTICLE_DENSITY_MIN])),
   C4_alert_conditions.2.1 4000 11
      (Or.inl (by norm_num [PARTICLE_DENSITY_MIN])) (by norm_num [DELTA_MAX]),
   C4_alert_conditions.2.2 [default] [(0, false)]
      [(default, 0, alertFor (ProcResult.density default) 0)] 0 rfl (by norm_num)⟩

/-! ## Claim C5: acceleration series -/

theorem npGradient_getD (l : List ℚ) (i : ℕ) (h : i < l.length) :
    (npGradient l).getD i 0 = gradAt l i := by
  unfold npGradient
  have h2 : i < ((List.range l.length).map (gradAt l)).length := by simpa using h
  rw [List.getD_eq_getElem _ _ h2, List.getElem_map, List.getElem_range]

theorem accel_getD (l : List ℚ) (fps : ℚ) (i : ℕ) (h2 : 2 ≤ l.length)
    (hi : i < l.length) :
    (compute_accelerations l fps).getD i 0 = gradAt l i * fps := by
  unfold compute_accelerations
  rw [if_neg (not_lt.mpr h2)]
  have hm : i < ((npGradient l).map (fun a => a * fps)).length := by
    simp [npGradient]
    omega
  rw [List.getD_eq_getElem _ _ hm, List.getElem_map]
  have hg : i < (npGradient l).length := by
    simp [npGradient]
    omega
  rw [← List.getD_eq_getElem _ 0 hg, npGradient_getD l i hi]

/-- The acceleration series is the numpy gradient of the speed series
(one-sided differences at the two ends, central differences inside)
scaled by the frame rate; with fewer than two speeds it is identically
zero, and for a constant speed series it is identically zero. -/
theorem C5_acceleration_series :
    (∀ (speeds : List ℚ) (fps : ℚ), speeds.length < 2 →
      compute_accelerations speeds fps = List.replicate speeds.length 0) ∧
    (∀ (speeds : List ℚ) (fps : ℚ), 2 ≤ speeds.length →
      (compute_accelerations speeds fps).getD 0 0
          = (speeds.getD 1 0 - speeds.getD 0 0) * fps ∧
      (compute_accelerations speeds fps).getD (speeds.length - 1) 0
          = (speeds.getD (speeds.length - 1) 0 -
             speeds.getD (speeds.length - 2) 0) * fps) ∧
    (∀ (speeds : List ℚ) (fps : ℚ) (i : ℕ), 0 < i → i + 1 < speeds.length →
      (compute_accelerations speeds fps).getD i 0
          = (speeds.getD (i + 1) 0 - speeds.getD (i - 1) 0) / 2 * fps) ∧
    (∀ (n : ℕ) (c fps : ℚ), 2 ≤ n →
      compute_accelerations (List.replicate n c) fps = List.replicate n 0) := by
  refine ⟨?_, ?_, ?_, ?_⟩
  · intro speeds fps h
    unfold compute_accelerations
    rw [if_pos h]
  · intro speeds fps h
    constructor
    · rw [accel_getD speeds fps 0 h (by omega)]
      simp [gradAt]
    · rw [accel_getD speeds fps (speeds.length - 1) h (by omega)]
      have hne : speeds.length - 1 = 0 ∨ speeds.length - 1 ≠ 0 := by omega
      unfold gradAt
      rw [if_neg (by omega), if_pos rfl]
  · intro speeds fps i h0 h1
    rw [accel_getD speeds fps i (by omega) (by omega)]
    unfold gradAt
    rw [if_neg (by omega), if_neg (by omega)]
  · intro n c fps h
    apply List.eq_replicate_iff.mpr
    constructor
    · unfold compute_accelerations
      rw [if_neg (by simp; omega)]
      simp [npGradient]
    · intro b hb
      unfold compute_accelerations at hb
      rw [if_neg (by simp; omega)] at hb
      unfold npGradient at hb
      rw [List.map_map] at hb
      obtain ⟨i, hi, rfl⟩ := List.mem_map.mp hb
      rw [List.mem_range, List.length_replicate] at hi
      simp only [Function.comp]
      have hz : gradAt (List.replicate n c) i = 0 := by
        unfold gradAt
        by_cases hi0 : i = 0
        · rw [if_pos hi0, getD_repl n 1 c 0 (by omega), getD_repl n 0 c 0 (by omega)]
          ring
        · by_cases hil : i = (List.replicate n c).length - 1
          · rw [if_neg hi0, if_pos hil, List.length_replicate,
                getD_repl n (n - 1) c 0 (by omega), getD_repl n (n - 2) c 0 (by omega)]
            ring
          · rw [List.length_replicate] at hil
            rw [if_neg hi0, if_neg (by rw [List.length_replicate]; exact hil),
                getD_repl n (i + 1) c 0 (by omega), getD_repl n (i - 1) c 0 (by omega)]
            ring
      rw [hz]
      ring

theorem C5_witness :
    compute_accelerations [5] 3 = List.replicate 1 0
    ∧ (compute_accelerations [1, 2, 4] 10).getD 0 0 = (2 - 1) * 10
    ∧ (compute_accelerations [1, 2, 4] 10).getD 1 0 = (4 - 1) / 2 * 10
    ∧ compute_accelerations (List.replicate 3 7) 2 = List.replicate 3 0 :=
  ⟨C5_acceleration_series.1 [5] 3 (by norm_num),
   by
     have h := (C5_acceleration_series.2.1 [1, 2, 4] 10 (by norm_num)).1
     simpa using h,
   by
     have h := C5_acceleration_series.2.2.1 [1, 2, 4] 10 1 (by norm_num) (by norm_num)
     simpa using h,
   C5_acceleration_series.2.2.2 3 7 2 (by norm_num)⟩

/-! ## Claim C7: degenerate per-frame features -/

theorem activeCoords_length (img : Image) :
    (activeCoords img).length = density img :=
  Eq.symm (List.countP_eq_length_filter _ _)

/-- The per-frame analyzer is total on every image: with zero active pixels
the centroid is `(0, 0)` and the mean colour `(0, 0, 0)`; with a positive
count the features are the exact means over active pixels (the divisor in
the means is the positive density, so no empty mean is ever formed). -/
theorem C7_zero_density_features :
    ∀ img : Image,
      (density img = 0 → centroid img = (0, 0) ∧ meanColors img = (0, 0, 0)) ∧
      (0 < density img →
        activeCoords img ≠ [] ∧
        centroid img
          = (((activeCoords img).map (fun p => (p.2 : ℚ))).sum / (density img : ℚ),
             ((activeCoords img).map (fun p => (p.1 : ℚ))).sum / (density img : ℚ)) ∧
        meanColors img
          = (((activeCoords img).map (fun p => (img.px p.1 p.2).1)).sum / (density img : ℚ),
             ((activeCoords img).map (fun p => (img.px p.1 p.2).2.1)).sum / (density img : ℚ),
             ((activeCoords img).map (fun p => (img.px p.1 p.2).2.2)).sum / (density img : ℚ))) := by
  intro img
  constructor
  · intro h
    constructor
    · unfold centroid
      rw [if_neg (by omega)]
    · unfold meanColors
      rw [if_neg (by omega)]
  · intro h
    refine ⟨?_, ?_, ?_⟩
    · have hl : 0 < (activeCoords img).length := by
        rw [activeCoords_length]
        exact h
      exact List.ne_nil_of_length_pos hl
    · unfold centroid
      rw [if_pos h, activeCoords_length]
    · unfold meanColors
      rw [if_pos h, activeCoords_length]

theorem C7_witness :
    (centroid ⟨2, 2, fun _ _ => (0, 0, 0)⟩ = (0, 0)
      ∧ meanColors ⟨2, 2, fun _ _ => (0, 0, 0)⟩ = (0, 0, 0))
    ∧ (activeCoords ⟨1, 1, fun _ _ => (2, 3, 4)⟩ ≠ []
      ∧ centroid ⟨1, 1, fun _ _ => (2, 3, 4)⟩
          = (((activeCoords ⟨1, 1, fun _ _ => (2, 3, 4)⟩).map (fun p => (p.2 : ℚ))).sum
               / (density ⟨1, 1, fun _ _ => (2, 3, 4)⟩ : ℚ),
             ((activeCoords ⟨1, 1, fun _ _ => (2, 3, 4)⟩).map (fun p => (p.1 : ℚ))).sum
               / (density ⟨1, 1, fun _ _ => (2, 3, 4)⟩ : ℚ))
      ∧ meanColors ⟨1, 1, fun _ _ => (2, 3, 4)⟩
          = (((activeCoords ⟨1, 1, fun _ _ => (2, 3, 4)⟩).map
                (fun p => ((Image.px ⟨1, 1, fun _ _ => (2, 3, 4)⟩) p.1 p.2).1)).sum
               / (density ⟨1, 1, fun _ _ => (2, 3, 4)⟩ : ℚ),
             ((activeCoords ⟨1, 1, fun _ _ => (2, 3, 4)⟩).map
                (fun p => ((Image.px ⟨1, 1, fun _ _ => (2, 3, 4)⟩) p.1 p.2).2.1)).sum
               / (density ⟨1, 1, fun _ _ => (2, 3, 4)⟩ : ℚ),
             ((activeCoords ⟨1, 1, fun _ _ => (2, 3, 4)⟩).map
                (fun p => ((Image.px ⟨1, 1, fun _ _ => (2, 3, 4)⟩) p.1 p.2).2.2)).sum
               / (density ⟨1, 1, fun _ _ => (2, 3, 4)⟩ : ℚ))) :=
  ⟨(C7_zero_density_features ⟨2, 2, fun _ _ => (0, 0, 0)⟩).1 (by decide),
   (C7_zero_density_features ⟨1, 1, fun _ _ => (2, 3, 4)⟩).2 (by decide)⟩

/-! ## Claim C6: delta series -/

theorem meanAbsDiff_self_zero (a b : Image)
    (hpx : ∀ y x, y < a.h → x < a.w → a.px y x = b.px y x) :
    meanAbsDiff a b = 0 := by
  unfold meanAbsDiff sumAbsDiff
  rw [Finset.sum_eq_zero, zero_div]
  intro y hy
  rw [Finset.sum_eq_zero]
  intro x hx
  rw [hpx y x (Finset.mem_range.mp hy) (Finset.mem_range.mp hx)]
  simp [ratAbs]

theorem deltaTail_spec :
    ∀ (a : Image) (rest : List Image) (ds : List (ℚ × Bool)),
      deltaTail a rest = .ok ds →
      ds.length = rest.length ∧
      ∀ i, i < rest.length →
        pairDelta ((a :: rest).getD i default) (rest.getD i default)
          = .ok (ds.getD i (0, false))
  | _, [], ds, h => by
      simp only [deltaTail, Except.ok.injEq] at h
      subst h
      exact ⟨rfl, fun i hi => absurd hi (by simp)⟩
  | a, b :: rest, ds, h => by
      unfold deltaTail at h
      cases hpd : pairDelta a b with
      | error e => rw [hpd] at h; exact absurd h (by simp)
      | ok dw =>
          rw [hpd] at h
          cases hdt : deltaTail b rest with
          | error e => rw [hdt] at h; exact absurd h (by simp)
          | ok tail =>
              rw [hdt] at h
              simp only [Except.ok.injEq] at h
              subst h
              have ih := deltaTail_spec b rest tail hdt
              refine ⟨by simp [ih.1], ?_⟩
              intro i hi
              cases i with
              | zero => simp [hpd]
              | succ j =>
                  have hj : j < rest.length := by simpa using hi
                  simpa using ih.2 j hj

/-- The delta series starts with 0 at index 0; at index `i + 1` it is the
mean absolute per-pixel difference of frames `i` and `i + 1` when their
shapes agree (hence 0 for identical pixel data), and it is 0 with the
warning recorded when the shapes differ by more than 50 pixels in either
dimension. -/
theorem C6_delta_series :
    ∀ (imgs : List Image) (ds : List (ℚ × Bool)),
      compute_deltas imgs = .ok ds →
      ds.getD 0 (0, false) = (0, false) ∧
      (∀ i, i + 1 < imgs.length →
        (imgs.getD i default).h = (imgs.getD (i + 1) default).h →
        (imgs.getD i default).w = (imgs.getD (i + 1) default).w →
        ds.getD (i + 1) (0, false)
          = (meanAbsDiff (imgs.getD i default) (imgs.getD (i + 1) default), false)) ∧
      (∀ i, i + 1 < imgs.length →
        (imgs.getD i default).h = (imgs.getD (i + 1) default).h →
        (imgs.getD i default).w = (imgs.getD (i + 1) default).w →
        (∀ y x, y < (imgs.getD i default).h → x < (imgs.getD i default).w →
          (imgs.getD i default).px y x = (imgs.getD (i + 1) default).px y x) →
        ds.getD (i + 1) (0, false) = (0, false)) ∧
      (∀ i, i + 1 < imgs.length →
        (50 < natAbsDiff (imgs.getD i default).h (imgs.getD (i + 1) default).h ∨
         50 < natAbsDiff (imgs.getD i default).w (imgs.getD (i + 1) default).w) →
        ds.getD (i + 1) (0, false) = (0, true)) := by
  intro imgs ds h
  cases imgs with
  | nil =>
      simp only [compute_deltas, Except.ok.injEq] at h
      subst h
      refine ⟨rfl, ?_, ?_, ?_⟩ <;> intro i hi <;> simp at hi
  | cons a rest =>
      simp only [compute_deltas] at h
      cases hdt : deltaTail a rest with
      | error e => rw [hdt] at h; exact absurd h (by simp)
      | ok tail =>
          rw [hdt] at h
          simp only [Except.ok.injEq] at h
          subst h
          have spec := deltaTail_spec a rest tail hdt
          have hpair : ∀ i, i + 1 < (a :: rest).length →
              pairDelta ((a :: rest).getD i default) ((a :: rest).getD (i + 1) default)
                = .ok (tail.getD i (0, false)) := by
            intro i hi
            have hj : i < rest.length := by simpa using hi
            simpa using spec.2 i hj
          have hmid : ∀ i, i + 1 < (a :: rest).length →
              ((a :: rest).getD i default).h = ((a :: rest).getD (i + 1) default).h →
              ((a :: rest).getD i default).w = ((a :: rest).getD (i + 1) default).w →
              ((0, false) :: tail).getD (i + 1) (0, false)
                = (meanAbsDiff ((a :: rest).getD i default)
                    ((a :: rest).getD (i + 1) default), false) := by
            intro i hi hh hw
            have hp := hpair i hi
            unfold pairDelta at hp
            rw [if_neg (by rw [hh, hw]; simp [natAbsDiff]), if_pos ⟨hh, hw⟩] at hp
            simp only [Except.ok.injEq] at hp
            simpa using hp.symm
          refine ⟨rfl, hmid, ?_, ?_⟩
          · intro i hi hh hw hpx
            rw [hmid i hi hh hw, meanAbsDiff_self_zero _ _ hpx]
          · intro i hi hfar
            have hp := hpair i hi
            unfold pairDelta at hp
            rw [if_pos hfar] at hp
            simp only [Except.ok.injEq] at hp
            simpa using hp.symm

theorem C6_witness :
    ([(0, false), (0, false), (0, true)] : List (ℚ × Bool)).getD 0 (0, false) = (0, false)
    ∧ ([(0, false), (0, false), (0, true)] : List (ℚ × Bool)).getD 1 (0, false) = (0, false)
    ∧ ([(0, false), (0, false), (0, true)] : List (ℚ × Bool)).getD 2 (0, false) = (0, true) := by
  have h : compute_deltas
      [⟨1, 1, fun _ _ => (1, 2, 3)⟩, ⟨1, 1, fun _ _ => (1, 2, 3)⟩,
       ⟨60, 1, fun _ _ => (0, 0, 0)⟩]
      = .ok [(0, false), (0, false), (0, true)] := by
    norm_num [compute_deltas, deltaTail, pairDelta, natAbsDiff, meanAbsDiff,
      sumAbsDiff, ratAbs, Finset.sum_range_one]
  have hc := C6_delta_series _ _ h
  refine ⟨hc.1, ?_, ?_⟩
  · exact hc.2.2.1 0 (by norm_num) rfl rfl (fun y x _ _ => rfl)
  · exact hc.2.2.2 1 (by norm_num) (Or.inl (by decide))

/-! ## Claim C3: cross-correlation and best lag -/

theorem argmaxAux_fst_cases :
    ∀ (xs : List ℚ) (i : ℕ) (b : ℕ × ℚ),
      argmaxAux xs i b = b ∨
      ∃ k, k < xs.length ∧ argmaxAux xs i b = (i + k, xs.getD k 0)
  | [], _, _ => Or.inl rfl
  | x :: xs, i, b => by
      unfold argmaxAux
      split_ifs with h
      · rcases argmaxAux_fst_cases xs (i + 1) (i, x) with h1 | ⟨k, hk, h1⟩
        · right
          exact ⟨0, by simp, by simp [h1]⟩
        · right
          refine ⟨k + 1, by simp only [List.length_cons]; omega, ?_⟩
          rw [h1, List.getD_cons_succ]
          simp only [Prod.mk.injEq]
          exact ⟨by omega, trivial⟩
      · rcases argmaxAux_fst_cases xs (i + 1) b with h1 | ⟨k, hk, h1⟩
        · left
          exact h1
        · right
          refine ⟨k + 1, by simp only [List.length_cons]; omega, ?_⟩
          rw [h1, List.getD_cons_succ]
          simp only [Prod.mk.injEq]
          exact ⟨by omega, trivial⟩

theorem argmaxAux_snd_ge :
    ∀ (xs : List ℚ) (i : ℕ) (b : ℕ × ℚ),
      b.2 ≤ (argmaxAux xs i b).2 ∧
      ∀ k, k < xs.length → xs.getD k 0 ≤ (argmaxAux xs i b).2
  | [], _, _ => ⟨le_refl _, fun k hk => absurd hk (by simp)⟩
  | x :: xs, i, b => by
      unfold argmaxAux
      split_ifs with h
      · have ih := argmaxAux_snd_ge xs (i + 1) (i, x)
        refine ⟨le_trans (le_of_lt h) ih.1, ?_⟩
        intro k hk
        cases k with
        | zero => simpa using ih.1
        | succ j =>
            rw [List.getD_cons_succ]
            exact ih.2 j (by simpa using hk)
      · have ih := argmaxAux_snd_ge xs (i + 1) b
        refine ⟨ih.1, ?_⟩
        intro k hk
        cases k with
        | zero =>
            rw [List.getD_cons_zero]
            exact le_trans (not_lt.mp h) ih.1
        | succ j =>
            rw [List.getD_cons_succ]
            exact ih.2 j (by simpa using hk)

theorem argmaxAux_keep :
    ∀ (xs : List ℚ) (i : ℕ) (b : ℕ × ℚ),
      (∀ k, k < xs.length → xs.getD k 0 ≤ b.2) → argmaxAux xs i b = b
  | [], _, _, _ => rfl
  | x :: xs, i, b, hle => by
      unfold argmaxAux
      have hx : x ≤ b.2 := by simpa using hle 0 (by simp)
      rw [if_neg (not_lt.mpr hx)]
      exact argmaxAux_keep xs (i + 1) b (fun k hk => by
        have := hle (k + 1) (by simpa using hk)
        simpa using this)

theorem argmaxAux_strict :
    ∀ (xs : List ℚ) (i : ℕ) (b : ℕ × ℚ) (k : ℕ),
      k < xs.length → b.2 < xs.getD k 0 →
      (∀ m, m < xs.length → m ≠ k → xs.getD m 0 < xs.getD k 0) →
      argmaxAux xs i b = (i + k, xs.getD k 0)
  | [], _, _, k, hk, _, _ => absurd hk (by simp)
  | x :: xs, i, b, 0, hk, hbk, hstr => by
      rw [List.getD_cons_zero] at hbk
      unfold argmaxAux
      rw [if_pos hbk]
      rw [argmaxAux_keep xs (i + 1) (i, x) (fun m hm => by
        have := hstr (m + 1) (by simpa using hm) (by omega)
        rw [List.getD_cons_succ, List.getD_cons_zero] at this
        exact le_of_lt this)]
      simp
  | x :: xs, i, b, k + 1, hk, hbk, hstr => by
      rw [List.getD_cons_succ] at hbk
      have hk2 : k < xs.length := by simpa using hk
      have hstr2 : ∀ m, m < xs.length → m ≠ k → xs.getD m 0 < xs.getD k 0 := by
        intro m hm hmk
        have := hstr (m + 1) (by simpa using hm) (by omega)
        rw [List.getD_cons_succ, List.getD_cons_succ] at this
        exact this
      unfold argmaxAux
      split_ifs with h
      · have hx : x < xs.getD k 0 := by
          have := hstr 0 (by simp) (by omega)
          rw [List.getD_cons_zero, List.getD_cons_succ] at this
          exact this
        rw [argmaxAux_strict xs (i + 1) (i, x) k hk2 hx hstr2]
        rw [List.getD_cons_succ]
        simp only [Prod.mk.injEq]
        exact ⟨by omega, trivial⟩
      · rw [argmaxAux_strict xs (i + 1) b k hk2 hbk hstr2]
        rw [List.getD_cons_succ]
        simp only [Prod.mk.injEq]
        exact ⟨by omega, trivial⟩

theorem npArgmax_getD_le (l : List ℚ) (j : ℕ) (hj : j < l.length) :
    l.getD j 0 ≤ l.getD (npArgmax l) 0 := by
  cases l with
  | nil => simp at hj
  | cons c rest =>
      have hval : (c :: rest).getD (npArgmax (c :: rest)) 0
          = (argmaxAux rest 1 (0, c)).2 := by
        simp only [npArgmax]
        rcases argmaxAux_fst_cases rest 1 (0, c) with h1 | ⟨k, hk, h1⟩
        · rw [h1]
          simp
        · rw [h1]
          rw [Nat.add_comm 1 k]
          rw [List.getD_cons_succ]
      rw [hval]
      cases j with
      | zero =>
          rw [List.getD_cons_zero]
          exact (argmaxAux_snd_ge rest 1 (0, c)).1
      | succ m =>
          rw [List.getD_cons_succ]
          exact (argmaxAux_snd_ge rest 1 (0, c)).2 m (by simpa using hj)

theorem npArgmax_eq_of_strict (l : List ℚ) (j : ℕ) (hj : j < l.length)
    (hstr : ∀ m, m < l.length → m ≠ j → l.getD m 0 < l.getD j 0) :
    npArgmax l = j := by
  cases l with
  | nil => simp at hj
  | cons c rest =>
      cases j with
      | zero =>
          simp only [npArgmax]
          rw [argmaxAux_keep rest 1 (0, c) (fun k hk => by
            have := hstr (k + 1) (by simpa using hk) (by omega)
            rw [List.getD_cons_succ, List.getD_cons_zero] at this
            exact le_of_lt this)]
      | succ k =>
          simp only [npArgmax]
          have hc : c < rest.getD k 0 := by
            have := hstr 0 (by simp) (by omega)
            rw [List.getD_cons_zero, List.getD_cons_succ] at this
            exact this
          have hstr2 : ∀ m, m < rest.length → m ≠ k →
              rest.getD m 0 < rest.getD k 0 := by
            intro m hm hmk
            have := hstr (m + 1) (by simpa using hm) (by omega)
            rw [List.getD_cons_succ, List.getD_cons_succ] at this
            exact this
          rw [argmaxAux_strict rest 1 (0, c) k (by simpa using hj) hc hstr2]
          omega

/-- Nat-indexed form of the self-correlation at a nonneg lag. -/
def corrAtNat (l : List ℚ) (k : ℕ) : ℚ :=
  ∑ n ∈ Finset.range (l.length - k), l.getD (n + k) 0 * l.getD n 0

theorem getQ_ofNat (l : List ℚ) (m : ℕ) : getQ l (m : ℤ) = l.getD m 0 := by
  unfold getQ
  rw [if_pos (by omega)]
  rw [Int.toNat_natCast]

theorem getQ_sub (l : List ℚ) (n k : ℕ) :
    getQ l ((n : ℤ) - (k : ℤ)) = if k ≤ n then l.getD (n - k) 0 else 0 := by
  unfold getQ
  by_cases h : k ≤ n
  · rw [if_pos (by omega), if_pos h]
    congr 1
    omega
  · rw [if_neg (by omega), if_neg h]

theorem getD_of_le_length (l : List ℚ) (m : ℕ) (h : l.length ≤ m) :
    l.getD m 0 = 0 := by
  rw [List.getD_eq_getElem?_getD, List.getElem?_eq_none (by omega)]
  rfl

theorem corrAt_nonneg_lag (l : List ℚ) (k : ℕ) (hk : k ≤ l.length) :
    corrAt l l (k : ℤ) = corrAtNat l k := by
  unfold corrAt corrAtNat
  rw [← Finset.sum_subset (Finset.range_subset.mpr (by omega : l.length - k ≤ l.length))]
  · apply Finset.sum_congr rfl
    intro n hn
    have : ((n : ℤ) + (k : ℤ)) = ((n + k : ℕ) : ℤ) := by omega
    rw [this, getQ_ofNat]
  · intro n hn hnot
    have hge : l.length - k ≤ n := by simpa using hnot
    have : ((n : ℤ) + (k : ℤ)) = ((n + k : ℕ) : ℤ) := by omega
    rw [this, getQ_ofNat, getD_of_le_length l (n + k) (by omega)]
    ring

theorem corrAt_neg_lag (l : List ℚ) (k : ℕ) (_hk : k ≤ l.length) :
    corrAt l l (-(k : ℤ)) = corrAtNat l k := by
  unfold corrAt
  have hstep : ∀ n ∈ Finset.range l.length,
      getQ l ((n : ℤ) + -(k : ℤ)) * l.getD n 0
        = if k ≤ n then l.getD (n - k) 0 * l.getD n 0 else 0 := by
    intro n hn
    have : ((n : ℤ) + -(k : ℤ)) = ((n : ℤ) - (k : ℤ)) := by ring
    rw [this, getQ_sub]
    split_ifs with h
    · rfl
    · ring
  rw [Finset.sum_congr rfl hstep, Finset.sum_ite, Finset.sum_const_zero, add_zero]
  have hfilter : (Finset.range l.length).filter (fun n => k ≤ n)
      = Finset.Ico k l.length := by
    ext n
    simp [Finset.mem_filter, Finset.mem_range, Finset.mem_Ico]
    omega
  rw [hfilter, Finset.sum_Ico_eq_sum_range]
  unfold corrAtNat
  apply Finset.sum_congr rfl
  intro n hn
  have h1 : k + n - k = n := by omega
  rw [h1]
  ring_nf

theorem corrAtNat_zero (l : List ℚ) :
    corrAtNat l 0 = ∑ n ∈ Finset.range l.length, l.getD n 0 ^ 2 := by
  unfold corrAtNat
  rw [Nat.sub_zero]
  apply Finset.sum_congr rfl
  intro n hn
  rw [Nat.add_zero]
  ring

theorem sum_sq_shift (l : List ℚ) (k : ℕ) :
    ∑ n ∈ Finset.range (l.length - k), l.getD (n + k) 0 ^ 2
      = ∑ m ∈ Finset.Ico k l.length, l.getD m 0 ^ 2 := by
  rw [Finset.sum_Ico_eq_sum_range]
  apply Finset.sum_congr rfl
  intro n hn
  rw [Nat.add_comm k n]

/-- Strict autocorrelation bound: at any nonzero lag the self-correlation of
a series with a nonzero entry is strictly below its zero-lag value. -/
theorem corrAtNat_lt_sum_sq (l : List ℚ) (k : ℕ) (hk1 : 1 ≤ k) (hkN : k ≤ l.length)
    (hnz : ∃ i, i < l.length ∧ l.getD i 0 ≠ 0) :
    corrAtNat l k < ∑ n ∈ Finset.range l.length, l.getD n 0 ^ 2 := by
  have h1 : 2 * corrAtNat l k ≤
      (∑ n ∈ Finset.range (l.length - k), l.getD (n + k) 0 ^ 2) +
      (∑ n ∈ Finset.range (l.length - k), l.getD n 0 ^ 2) := by
    unfold corrAtNat
    rw [Finset.mul_sum, ← Finset.sum_add_distrib]
    apply Finset.sum_le_sum
    intro n hn
    calc 2 * (l.getD (n + k) 0 * l.getD n 0)
        = 2 * l.getD (n + k) 0 * l.getD n 0 := by ring
      _ ≤ l.getD (n + k) 0 ^ 2 + l.getD n 0 ^ 2 := two_mul_le_add_sq _ _
  have hA_le : (∑ n ∈ Finset.range (l.length - k), l.getD (n + k) 0 ^ 2)
      ≤ ∑ n ∈ Finset.range l.length, l.getD n 0 ^ 2 := by
    rw [sum_sq_shift]
    rw [Finset.range_eq_Ico]
    apply Finset.sum_le_sum_of_subset_of_nonneg
    · apply Finset.Ico_subset_Ico <;> omega
    · intro m _ _
      exact sq_nonneg _
  have hB_le : (∑ n ∈ Finset.range (l.length - k), l.getD n 0 ^ 2)
      ≤ ∑ n ∈ Finset.range l.length, l.getD n 0 ^ 2 := by
    apply Finset.sum_le_sum_of_subset_of_nonneg
    · exact Finset.range_subset.mpr (by omega)
    · intro m _ _
      exact sq_nonneg _
  by_cases hstrict : 2 * corrAtNat l k <
      (∑ n ∈ Finset.range (l.length - k), l.getD (n + k) 0 ^ 2) +
      (∑ n ∈ Finset.range (l.length - k), l.getD n 0 ^ 2)
  · by_cases hAS : (∑ n ∈ Finset.range (l.length - k), l.getD (n + k) 0 ^ 2)
        = ∑ n ∈ Finset.range l.length, l.getD n 0 ^ 2
    · linarith
    · have : (∑ n ∈ Finset.range (l.length - k), l.getD (n + k) 0 ^ 2)
          < ∑ n ∈ Finset.range l.length, l.getD n 0 ^ 2 := lt_of_le_of_ne hA_le hAS
      linarith
  · have heq : 2 * corrAtNat l k =
        (∑ n ∈ Finset.range (l.length - k), l.getD (n + k) 0 ^ 2) +
        (∑ n ∈ Finset.range (l.length - k), l.getD n 0 ^ 2) :=
      le_antisymm h1 (not_lt.mp hstrict)
    by_cases hAS : (∑ n ∈ Finset.range (l.length - k), l.getD (n + k) 0 ^ 2)
        = ∑ n ∈ Finset.range l.length, l.getD n 0 ^ 2
    · exfalso
      have hz : ∑ n ∈ Finset.range (l.length - k),
          (l.getD (n + k) 0 - l.getD n 0) ^ 2 = 0 := by
        have hexp : ∀ n ∈ Finset.range (l.length - k),
            (l.getD (n + k) 0 - l.getD n 0) ^ 2
              = (l.getD (n + k) 0 ^ 2 + l.getD n 0 ^ 2) -
                2 * (l.getD (n + k) 0 * l.getD n 0) := by
          intro n hn
          ring
        rw [Finset.sum_congr rfl hexp, Finset.sum_sub_distrib,
            Finset.sum_add_distrib, ← Finset.mul_sum]
        have hcc : ∑ n ∈ Finset.range (l.length - k),
            l.getD (n + k) 0 * l.getD n 0 = corrAtNat l k := rfl
        rw [hcc]
        linarith
      have hper : ∀ n, n < l.length - k → l.getD (n + k) 0 = l.getD n 0 := by
        intro n hn
        have hterm := (Finset.sum_eq_zero_iff_of_nonneg
          (fun n _ => sq_nonneg _)).mp hz n (Finset.mem_range.mpr hn)
        have hsub := (pow_eq_zero_iff two_ne_zero).mp hterm
        linarith [sub_eq_zero.mp hsub]
      have hhead : ∀ m, m < k → l.getD m 0 = 0 := by
        have hsplit : (∑ m ∈ Finset.Ico 0 k, l.getD m 0 ^ 2) +
            (∑ m ∈ Finset.Ico k l.length, l.getD m 0 ^ 2)
              = ∑ m ∈ Finset.Ico 0 l.length, l.getD m 0 ^ 2 :=
          Finset.sum_Ico_consecutive _ (by omega) (by omega)
        have hS0 : (∑ n ∈ Finset.range l.length, l.getD n 0 ^ 2)
            = ∑ m ∈ Finset.Ico 0 l.length, l.getD m 0 ^ 2 := by
          rw [Finset.range_eq_Ico]
        rw [sum_sq_shift] at hAS
        have hzero : ∑ m ∈ Finset.Ico 0 k, l.getD m 0 ^ 2 = 0 := by
          linarith
        intro m hm
        have hterm := (Finset.sum_eq_zero_iff_of_nonneg
          (fun n _ => sq_nonneg _)).mp hzero m
          (Finset.mem_Ico.mpr ⟨Nat.zero_le m, hm⟩)
        exact (pow_eq_zero_iff two_ne_zero).mp hterm
      obtain ⟨i, hiN, hine⟩ := hnz
      have hall : ∀ m, m < l.length → l.getD m 0 = 0 := by
        intro m
        induction m using Nat.strong_induction_on with
        | _ m ih =>
            intro hmN
            by_cases hmk : m < k
            · exact hhead m hmk
            · have hm2 : m - k < l.length - k := by omega
              have hp := hper (m - k) hm2
              rw [Nat.sub_add_cancel (by omega)] at hp
              rw [hp]
              exact ih (m - k) (by omega) (by omega)
      exact hine (hall i hiN)
    · have : (∑ n ∈ Finset.range (l.length - k), l.getD (n + k) 0 ^ 2)
          < ∑ n ∈ Finset.range l.length, l.getD n 0 ^ 2 := lt_of_le_of_ne hA_le hAS
      linarith

theorem corrFull_length (a v : List ℚ) :
    (corrFull a v).length = a.length + v.length - 1 := by
  unfold corrFull
  rw [List.length_map, List.length_range]

theorem corrFull_getD (a v : List ℚ) (j : ℕ) (hj : j < a.length + v.length - 1) :
    (corrFull a v).getD j 0 = corrAt a v ((j : ℤ) - ((v.length : ℤ) - 1)) := by
  unfold corrFull
  have hm : j < ((List.range (a.length + v.length - 1)).map
      (fun (j : ℕ) => corrAt a v ((j : ℤ) - ((v.length : ℤ) - 1)))).length := by
    rw [List.length_map, List.length_range]
    exact hj
  rw [List.getD_eq_getElem _ _ hm, List.getElem_map, List.getElem_range]

theorem lagsList_getD (n j : ℕ) (hj : j < 2 * n - 1) :
    (lagsList n).getD j 0 = (j : ℤ) - ((n : ℤ) - 1) := by
  unfold lagsList
  have hm : j < ((List.range (2 * n - 1)).map
      (fun (j : ℕ) => (j : ℤ) - ((n : ℤ) - 1))).length := by
    rw [List.length_map, List.length_range]
    exact hj
  rw [List.getD_eq_getElem _ _ hm, List.getElem_map, List.getElem_range]

theorem centered_length (l : List ℚ) : (centered l).length = l.length := by
  simp [centered]

theorem all_getD_zero_of_forall (l : List ℚ) (h : ∀ y ∈ l, y = 0) :
    ∀ n, l.getD n 0 = 0 := by
  intro n
  by_cases hn : n < l.length
  · rw [List.getD_eq_getElem _ _ hn]
    exact h _ (List.getElem_mem hn)
  · exact getD_of_le_length _ _ (by omega)

theorem exists_getD_ne_zero (l : List ℚ) (h : ∃ y ∈ l, y ≠ 0) :
    ∃ i, i < l.length ∧ l.getD i 0 ≠ 0 := by
  obtain ⟨y, hmem, hy⟩ := h
  obtain ⟨i, hi, hval⟩ := List.getElem_of_mem hmem
  refine ⟨i, hi, ?_⟩
  rw [List.getD_eq_getElem _ _ hi, hval]
  exact hy

theorem corrAt_zero_of_all_zero (a v : List ℚ) (hv : ∀ n, v.getD n 0 = 0)
    (L : ℤ) : corrAt a v L = 0 := by
  unfold corrAt
  apply Finset.sum_eq_zero
  intro n hn
  rw [hv n, mul_zero]

/-- The code reports lag `lags[argmax(corr)]`; for two identical constant
series the centered series is zero, every correlation entry is 0, and
`np.argmax` returns the first index, so the reported best lag is `-(n-1)`,
not 0 as the claim states. -/
theorem C3_counterexample :
    bestLag [1, 1] [1, 1] = -1 ∧ ¬ (bestLag [1, 1] [1, 1] = 0) := by
  have hall : ∀ n, (([0, 0] : List ℚ)).getD n 0 = 0 := by
    intro n
    match n with
    | 0 => rfl
    | 1 => rfl
    | n + 2 => rfl
  have hc : centered [1, 1] = ([0, 0] : List ℚ) := by
    norm_num [centered]
  have hf : corrFull ([0, 0] : List ℚ) [0, 0] = [0, 0, 0] := by
    unfold corrFull
    rw [(rfl : List.range (([0, 0] : List ℚ).length + ([0, 0] : List ℚ).length - 1)
          = [0, 1, 2])]
    simp only [List.map]
    rw [corrAt_zero_of_all_zero _ _ hall, corrAt_zero_of_all_zero _ _ hall,
        corrAt_zero_of_all_zero _ _ hall]
  have hb : bestLag [1, 1] [1, 1] = -1 := by
    unfold bestLag
    rw [hc, hf]
    decide
  exact ⟨hb, by rw [hb]; decide⟩

/-- Amended claim C3: the correlation list holds the full cross-correlation
of the mean-centered series over the lags `-(n-1) .. n-1` and the reported
best lag maximizes it (first maximizer under ties, as `np.argmax`); for two
identical series whose mean-centered form is nonzero the reported best lag
is 0; for two identical series whose mean-centered form is identically zero
(constant series) every lag ties at correlation 0 and the reported lag is
the first one, `-(n-1)`. -/
theorem C3_best_lag :
    (∀ r e : List ℚ, r.length = e.length →
      ∀ j, j < (corrFull (centered r) (centered e)).length →
        (corrFull (centered r) (centered e)).getD j 0
          ≤ (corrFull (centered r) (centered e)).getD
              (npArgmax (corrFull (centered r) (centered e))) 0) ∧
    (∀ r : List ℚ, r ≠ [] → (∀ y ∈ centered r, y = 0) →
      bestLag r r = -((r.length : ℤ) - 1)) ∧
    (∀ r : List ℚ, (∃ y ∈ centered r, y ≠ 0) → bestLag r r = 0) := by
  refine ⟨?_, ?_, ?_⟩
  · intro r e _ j hj
    exact npArgmax_getD_le _ j hj
  · intro r hne hz
    have hlen := centered_length r
    have hN1 : 1 ≤ r.length := List.length_pos.mpr hne
    have hall : ∀ n, (centered r).getD n 0 = 0 := all_getD_zero_of_forall _ hz
    have hallc : ∀ j, (corrFull (centered r) (centered r)).getD j 0 = 0 := by
      intro j
      by_cases hj : j < (corrFull (centered r) (centered r)).length
      · rw [corrFull_length] at hj
        rw [corrFull_getD _ _ j hj]
        exact corrAt_zero_of_all_zero _ _ hall _
      · exact getD_of_le_length _ _ (by omega)
    have hargmax : npArgmax (corrFull (centered r) (centered r)) = 0 := by
      cases hcf : corrFull (centered r) (centered r) with
      | nil => rfl
      | cons c rest =>
          have hc0 : c = 0 := by
            have := hallc 0
            rw [hcf] at this
            simpa using this
          have hle : ∀ k, k < rest.length → rest.getD k 0 ≤ c := by
            intro k hk
            have := hallc (k + 1)
            rw [hcf, List.getD_cons_succ] at this
            rw [this, hc0]
          simp only [npArgmax]
          rw [argmaxAux_keep rest 1 (0, c) hle]
    unfold bestLag
    rw [hargmax, lagsList_getD r.length 0 (by omega)]
    omega
  · intro r hex
    obtain ⟨i, hiL, hine⟩ := exists_getD_ne_zero _ hex
    have hlen := centered_length r
    have hN1 : 1 ≤ r.length := by omega
    have hSmax : ∀ m, m < 2 * r.length - 1 → m ≠ r.length - 1 →
        (corrFull (centered r) (centered r)).getD m 0
          < (corrFull (centered r) (centered r)).getD (r.length - 1) 0 := by
      intro m hm hmne
      have hcenter : (corrFull (centered r) (centered r)).getD (r.length - 1) 0
          = ∑ n ∈ Finset.range (centered r).length, (centered r).getD n 0 ^ 2 := by
        rw [corrFull_getD _ _ _ (by rw [hlen]; omega)]
        have hlag : ((r.length - 1 : ℕ) : ℤ) - (((centered r).length : ℤ) - 1)
            = ((0 : ℕ) : ℤ) := by
          rw [hlen]
          omega
        rw [hlag, corrAt_nonneg_lag _ 0 (by omega), corrAtNat_zero]
      rw [hcenter, corrFull_getD _ _ _ (by rw [hlen]; omega)]
      by_cases hge : r.length - 1 ≤ m
      · have hk1 : 1 ≤ m - (r.length - 1) := by omega
        have hkN : m - (r.length - 1) ≤ (centered r).length := by
          rw [hlen]
          omega
        have hlag : ((m : ℕ) : ℤ) - (((centered r).length : ℤ) - 1)
            = ((m - (r.length - 1) : ℕ) : ℤ) := by
          rw [hlen]
          omega
        rw [hlag, corrAt_nonneg_lag _ _ hkN]
        exact corrAtNat_lt_sum_sq _ _ hk1 hkN ⟨i, hiL, hine⟩
      · have hk1 : 1 ≤ (r.length - 1) - m := by omega
        have hkN : (r.length - 1) - m ≤ (centered r).length := by
          rw [hlen]
          omega
        have hlag : ((m : ℕ) : ℤ) - (((centered r).length : ℤ) - 1)
            = -(((r.length - 1) - m : ℕ) : ℤ) := by
          rw [hlen]
          omega
        rw [hlag, corrAt_neg_lag _ _ hkN]
        exact corrAtNat_lt_sum_sq _ _ hk1 hkN ⟨i, hiL, hine⟩
    have hargmax : npArgmax (corrFull (centered r) (centered r)) = r.length - 1 := by
      apply npArgmax_eq_of_strict
      · rw [corrFull_length, hlen]
        omega
      · intro m hm hmne
        have hm2 : m < 2 * r.length - 1 := by
          rw [corrFull_length, hlen] at hm
          omega
        exact hSmax m hm2 hmne
    unfold bestLag
    rw [hargmax, lagsList_getD r.length (r.length - 1) (by omega)]
    omega

theorem C3_witness :
    (corrFull (centered [1, 2]) (centered [1, 2])).getD 0 0
      ≤ (corrFull (centered [1, 2]) (centered [1, 2])).getD
          (npArgmax (corrFull (centered [1, 2]) (centered [1, 2]))) 0
    ∧ bestLag [1, 1] [1, 1] = -((2 : ℤ) - 1)
    ∧ bestLag [1, 2] [1, 2] = 0 := by
  refine ⟨?_, ?_, ?_⟩
  · apply C3_best_lag.1 [1, 2] [1, 2] rfl 0
    rw [corrFull_length, centered_length]
    norm_num
  · apply C3_best_lag.2.1 [1, 1] (by simp)
    intro y hy
    rw [(by norm_num [centered] : centered [1, 1] = ([0, 0] : List ℚ))] at hy
    simpa using hy
  · apply C3_best_lag.2.2 [1, 2]
    refine ⟨(1 : ℚ) / 2, ?_, by norm_num⟩
    rw [(by norm_num [centered] : centered [1, 2] = ([-(1 / 2), 1 / 2] : List ℚ))]
    simp

end FireworkAnalysis
